import Mathlib

/-
Verification development for the torchlet repository: a minimal reverse-mode
automatic-differentiation engine (src/torchlet/engine.py) and a small
feed-forward network library built on it (src/torchlet/nn.py).

The engine's `Element` objects form a dynamic DAG.  We embed the graph as an
arena: a list of nodes in construction order, each node holding its numeric
payload and the operation (with operand indices) that produced it.  The
per-node closure `_backward` of the source is embedded as a central dispatch
`propagate` on the operation kind, exactly mirroring each closure's body.
Numeric payloads (numpy float64 scalars or 1-d arrays) are embedded as exact
rationals; gradients are a mutable map from node index to an optional payload
(None before lazy materialization), threaded explicitly.  Fallible numpy
operations (broadcasting errors, indexing errors, truth-value-of-array
errors, attribute errors) are embedded in `Except String`.
-/

namespace Torchlet

/-- Numeric payload of an `Element`: a numpy float64 scalar (0-d array) or a
1-d array, embedded over the exact rationals. -/
inductive Val where
  | scalar : ℚ → Val
  | arr : List ℚ → Val
deriving DecidableEq

/-- Index of a node in the arena (construction order). -/
abbrev Idx := Nat

/-- The operation that produced a node, with the operand indices it closed
over.  Mirrors `_op` plus the data captured by the `_backward` closure:
`__add__`, `__mul__`, `__pow__` (exponent is a plain integer, never an
Element), `relu`, `__getitem__`, or a leaf. -/
inductive Op where
  | leaf
  | add (a b : Idx)
  | mul (a b : Idx)
  | pow (a : Idx) (p : Int)
  | relu (a : Idx)
  | getitem (a : Idx) (i : Nat)
deriving DecidableEq

/-- One `Element`: its immutable `data` payload and producing operation. -/
structure Node where
  data : Val
  op : Op
deriving DecidableEq

/-- The computation graph: nodes in construction order. -/
abbrev Graph := List Node

/-- Elementwise binary operation with numpy 1-d broadcasting (scalar with
array, equal lengths, or a length-1 array against any length); `none` is a
numpy broadcasting error. -/
def bcast2 (f : ℚ → ℚ → ℚ) : Val → Val → Option Val
  | .scalar a, .scalar b => some (.scalar (f a b))
  | .scalar a, .arr ys => some (.arr (ys.map (fun y => f a y)))
  | .arr xs, .scalar b => some (.arr (xs.map (fun x => f x b)))
  | .arr xs, .arr ys =>
    if xs.length = ys.length then some (.arr (List.zipWith f xs ys))
    else if xs.length = 1 then some (.arr (ys.map (fun y => f (xs.headD 0) y)))
    else if ys.length = 1 then some (.arr (xs.map (fun x => f x (ys.headD 0))))
    else none

/-- numpy elementwise addition `x + y`. -/
def addVal : Val → Val → Option Val := bcast2 (· + ·)

/-- numpy elementwise multiplication `x * y`. -/
def mulVal : Val → Val → Option Val := bcast2 (· * ·)

/-- numpy in-place addition `t += s`: the result must keep the shape of `t`,
so a scalar target rejects any array source, and an array target accepts a
scalar, an equal-length array, or a length-1 array. -/
def iadd : Val → Val → Option Val
  | .scalar t, .scalar s => some (.scalar (t + s))
  | .scalar _, .arr _ => none
  | .arr ts, .scalar s => some (.arr (ts.map (fun t => t + s)))
  | .arr ts, .arr ss =>
    if ss.length = ts.length then some (.arr (List.zipWith (· + ·) ts ss))
    else if ss.length = 1 then some (.arr (ts.map (fun t => t + ss.headD 0)))
    else none

/-- numpy `self.data ** p` for an integer exponent, elementwise. -/
def powValZ : Val → Int → Val
  | .scalar x, p => .scalar (x ^ p)
  | .arr xs, p => .arr (xs.map (fun x => x ^ p))

/-- numpy `np.ones_like(v)`. -/
def onesLike : Val → Val
  | .scalar _ => .scalar 1
  | .arr xs => .arr (xs.map (fun _ => 1))

/-- numpy `np.zeros_like(v)`. -/
def zerosLike : Val → Val
  | .scalar _ => .scalar 0
  | .arr xs => .arr (xs.map (fun _ => 0))

/-- numpy `(v > 0)` as the 0/1 indicator used by `relu`'s backward closure
(`(out.data > 0) * out.grad`). -/
def gtZeroInd : Val → Val
  | .scalar x => .scalar (if 0 < x then 1 else 0)
  | .arr xs => .arr (xs.map (fun x => if 0 < x then 1 else 0))

/-- Forward payload of `relu`: the source computes
`0 if self.data < 0 else self.data`.  On a scalar this is fine; a python
truth test of a numpy array is only defined for arrays with exactly one
element, so any other array raises ValueError. -/
def reluData : Val → Except String Val
  | .scalar x => .ok (.scalar (if x < 0 then 0 else x))
  | .arr xs =>
    match xs with
    | [x] => .ok (if x < 0 then Val.scalar 0 else Val.arr [x])
    | _ => .error "ValueError: the truth value of an array with other than one element is ambiguous"

/-- Forward payload of `__getitem__`: `self.data[idx]`, an IndexError when
out of range or when the payload is a 0-d scalar. -/
def getitemData : Val → Nat → Except String Val
  | .scalar _, _ => .error "IndexError: too many indices for array"
  | .arr xs, i =>
    if h : i < xs.length then .ok (.scalar (xs.get ⟨i, h⟩))
    else .error "IndexError: index out of bounds"

/-- Node lookup in the arena; a junk leaf out of range (never reached in
well-formed use). -/
def nodeAt (g : Graph) (i : Idx) : Node := g.getD i ⟨Val.scalar 0, Op.leaf⟩

/-- Data payload of node `i`. -/
def dataAt (g : Graph) (i : Idx) : Val := (nodeAt g i).data

/-- The operand indices a node's `_backward` closure captured (`self`,
`other`), in closure order, with multiplicity. -/
def operands : Op → List Idx
  | .leaf => []
  | .add a b => [a, b]
  | .mul a b => [a, b]
  | .pow a _ => [a]
  | .relu a => [a]
  | .getitem a _ => [a]

/-- The `_prev` set of a node: `set(_children)`, i.e. the operands with
duplicates removed. -/
def prevs (g : Graph) (i : Idx) : List Idx := (operands (nodeAt g i).op).dedup

/-- Well-formedness of an arena graph: every operation only references
already-existing Elements, so operand indices are strictly below the node's
own index.  This holds for every graph the operation builders produce and is
the source's acyclicity invariant. -/
def WF (g : Graph) : Prop :=
  ∀ p ∈ g.enum, ∀ j ∈ operands p.2.op, j < p.1

instance (g : Graph) : Decidable (WF g) := by
  unfold WF; infer_instance

namespace Element

/-- Builder for `__add__` on two Elements: computes `self.data + other.data`,
appends the result node wired to its operands.  A numpy broadcasting failure
raises before any node is created. -/
def addE (g : Graph) (a b : Idx) : Except String (Graph × Idx) :=
  match addVal (dataAt g a) (dataAt g b) with
  | some d => .ok (g ++ [⟨d, .add a b⟩], g.length)
  | none => .error "ValueError: operands could not be broadcast together"

/-- Builder for `__mul__` on two Elements. -/
def mulE (g : Graph) (a b : Idx) : Except String (Graph × Idx) :=
  match mulVal (dataAt g a) (dataAt g b) with
  | some d => .ok (g ++ [⟨d, .mul a b⟩], g.length)
  | none => .error "ValueError: operands could not be broadcast together"

/-- Builder for `__pow__` with a plain integer exponent (the `assert
isinstance(other, (int, float))` is enforced by the type of `p`).  The
forward pass always succeeds. -/
def powE (g : Graph) (a : Idx) (p : Int) : Graph × Idx :=
  (g ++ [⟨powValZ (dataAt g a) p, .pow a p⟩], g.length)

/-- Builder for `relu`. -/
def reluE (g : Graph) (a : Idx) : Except String (Graph × Idx) :=
  match reluData (dataAt g a) with
  | .ok d => .ok (g ++ [⟨d, .relu a⟩], g.length)
  | .error e => .error e

/-- Builder for `__getitem__`: the new node has `self` as its only child. -/
def getitemE (g : Graph) (a : Idx) (i : Nat) : Except String (Graph × Idx) :=
  match getitemData (dataAt g a) i with
  | .ok d => .ok (g ++ [⟨d, .getitem a i⟩], g.length)
  | .error e => .error e

end Element

/-- Gradient state: `Element.grad` for each node index, `none` before lazy
initialization. -/
abbrev GradMap := Idx → Option Val

/-- Pointwise update of the gradient state. -/
def upd (m : GradMap) (i : Idx) (v : Option Val) : GradMap :=
  fun j => if j = i then v else m j

/-- The source's `_ensure_grad_initialized`: materialize zeros on first
need. -/
def ensure (g : Graph) (m : GradMap) (a : Idx) : GradMap :=
  match m a with
  | none => upd m a (some (zerosLike (dataAt g a)))
  | some _ => m

/-- Current gradient of node `a` (after `ensure` this is exact; the default
is the same zeros `ensure` would install). -/
def gradD (g : Graph) (m : GradMap) (a : Idx) : Val :=
  (m a).getD (zerosLike (dataAt g a))

/-- Reads `out.grad` where the source is about to use it as a number; a
`None` there is a python TypeError. -/
def readGrad (m : GradMap) (v : Idx) : Except String Val :=
  match m v with
  | some gv => .ok gv
  | none => .error "TypeError: unsupported operand type NoneType"

/-- Lifts a numpy broadcasting result. -/
def liftB : Option Val → Except String Val
  | some v => .ok v
  | none => .error "ValueError: operands could not be broadcast together"

/-- In-place accumulation `a.grad += t`. -/
def accum (g : Graph) (m : GradMap) (a : Idx) (t : Val) : Except String GradMap :=
  match iadd (gradD g m a) t with
  | some v => .ok (upd m a (some v))
  | none => .error "ValueError: non-broadcastable output operand"

/-- Central dispatch for the per-node `_backward` closures, one case per
operation, each the literal body of the closure in the source:

* leaf: `lambda: None`.
* add: ensure both operand grads, then `self.grad += out.grad` and
  `other.grad += out.grad` (re-reading `out.grad` for the second statement).
* mul: ensure both, then `self.grad += other.data * out.grad` and
  `other.grad += self.data * out.grad`.
* pow: `self._ensure_grad_initialized()` succeeds, but the next statement is
  `other._ensure_grad_initialized()` where `other` is the plain int/float
  exponent, so every backward through a pow node raises AttributeError (the
  python exception aborts the whole backward call).
* relu: ensure, then `self.grad += (out.data > 0) * out.grad`.
* getitem: `__getitem__` never attaches a closure, so the node keeps the
  default `lambda: None` and propagation is a no-op. -/
def propagate (g : Graph) (m : GradMap) (v : Idx) : Except String GradMap :=
  match (nodeAt g v).op with
  | .leaf => .ok m
  | .add a b => do
    let m1 := ensure g m a
    let m2 := ensure g m1 b
    let gout1 ← readGrad m2 v
    let m3 ← accum g m2 a gout1
    let gout2 ← readGrad m3 v
    accum g m3 b gout2
  | .mul a b => do
    let m1 := ensure g m a
    let m2 := ensure g m1 b
    let gout1 ← readGrad m2 v
    let t1 ← liftB (mulVal (dataAt g b) gout1)
    let m3 ← accum g m2 a t1
    let gout2 ← readGrad m3 v
    let t2 ← liftB (mulVal (dataAt g a) gout2)
    accum g m3 b t2
  | .pow _a _p =>
    let _m1 := ensure g m _a
    .error "AttributeError: int object has no attribute _ensure_grad_initialized"
  | .relu a => do
    let m1 := ensure g m a
    let gout ← readGrad m1 v
    let t ← liftB (mulVal (gtZeroInd (dataAt g v)) gout)
    accum g m1 a t
  | .getitem _ _ => .ok m

/-- The source's recursive `build_topo`: depth-first post-order over `_prev`
edges with a visited set.  Fuel-indexed so the definition is structural; for
a well-formed graph every child index is strictly smaller, so fuel
`root + 1` never runs out.  Returns (post-order list, visited list). -/
def dfsAux (g : Graph) : Nat → Idx → List Idx × List Idx → List Idx × List Idx
  | 0, _, tv => tv
  | fuel + 1, i, tv =>
    if i ∈ tv.2 then tv
    else
      let tv1 := (prevs g i).foldl (fun acc c => dfsAux g fuel c acc) (tv.1, i :: tv.2)
      (tv1.1 ++ [i], tv1.2)

/-- `build_topo(self)` starting from the root with empty visited set. -/
def buildTopo (g : Graph) (root : Idx) : List Idx :=
  (dfsAux g (root + 1) root ([], [])).1

/-- `Element.backward`: build the topological order, seed
`self.grad = np.ones_like(self.data)` (overwriting any prior value), then
run every node's `_backward` in reverse topological order.  A python
exception in any closure aborts the sweep. -/
def backward (g : Graph) (m : GradMap) (root : Idx) : Except String GradMap :=
  let topo := buildTopo g root
  let m1 := upd m root (some (onesLike (dataAt g root)))
  topo.reverse.foldlM (fun acc v => propagate g acc v) m1

/-- `Module.zero_grad` at the graph level: `for p in self.parameters():
p.grad = 0` — assigns the plain scalar 0 to each parameter's grad. -/
def zeroGradIdx (ps : List Idx) (m : GradMap) : GradMap :=
  ps.foldl (fun acc p => upd acc p (some (Val.scalar 0))) m

/-- Two backward passes from the same root, with `f` applied to the gradient
state in between (for example `zeroGradIdx` of a module's parameters, or
`id` for nothing in between). -/
def run2 (g : Graph) (m : GradMap) (root : Idx) (f : GradMap → GradMap) :
    Except String GradMap := do
  let m1 ← backward g m root
  backward g (f m1) root

/-- A leaf Element node with scalar payload. -/
def leafN (q : ℚ) : Node := ⟨Val.scalar q, Op.leaf⟩

/-- The everywhere-uninitialized gradient state (fresh graph). -/
def gnone : GradMap := fun _ => none

/-- One step of python's `sum((wi * xi for wi, xi in zip(self.w, x)), self.b)`:
multiply the next weight/input pair and add it to the running total. -/
def sumStep (gp : Graph × Idx) (wx : Idx × Idx) : Except String (Graph × Idx) := do
  let (g2, t) ← Element.mulE gp.1 wx.1 wx.2
  Element.addE g2 gp.2 t

/-- Graph-level embedding of `Neuron.__call__`: the weighted sum is built by
folding over `zip(self.w, x)` starting from the bias (so `zip` silently
truncates to the shorter of the two sequences — the source performs no
length validation), then `relu` is applied when the nonlinearity flag is
set, else the linear sum is returned unchanged. -/
def Neuron.callG (g : Graph) (w : List Idx) (bI : Idx) (nonlin : Bool)
    (x : List Idx) : Except String (Graph × Idx) := do
  let (g1, act) ← (List.zip w x).foldlM sumStep (g, bI)
  if nonlin then Element.reluE g1 act else .ok (g1, act)

/-- Data-level projection of `Neuron.__call__` for scalar weights, bias and
inputs: the value of the returned Element.  The `relu` branch is the scalar
case of the engine's `0 if data < 0 else data`. -/
def Neuron.call (w : List ℚ) (b : ℚ) (nonlin : Bool) (x : List ℚ) : ℚ :=
  let act := (List.zip w x).foldl (fun acc wx => acc + wx.1 * wx.2) b
  if nonlin then (if act < 0 then 0 else act) else act

/-- A parameter Element of the module hierarchy.  Every parameter the nn
module ever constructs (`Element(random.uniform(-1, 1))` weights and
`Element(0)` biases) is a scalar, so its `data` is one rational and its
`grad` an optional rational (`None` before initialization). -/
structure PElem where
  data : ℚ
  grad : Option ℚ
deriving DecidableEq

/-- The `Neuron` module: weight Elements, a bias Element, and the
nonlinearity flag. -/
structure Neuron where
  w : List PElem
  b : PElem
  nonlin : Bool
deriving DecidableEq

/-- `Neuron.__init__(nin, nonlin)`: `nin` fresh weight Elements (the random
draws are abstracted as the supply `r`) and a zero bias. -/
def Neuron.make (nin : Nat) (nonlin : Bool) (r : Nat → ℚ) : Neuron :=
  ⟨(List.range nin).map (fun k => ⟨r k, none⟩), ⟨0, none⟩, nonlin⟩

/-- `Neuron.parameters`: `self.w + [self.b]`. -/
def Neuron.parameters (n : Neuron) : List PElem := n.w ++ [n.b]

/-- `Module.zero_grad` specialized to a Neuron: `p.grad = 0` for every
parameter it owns. -/
def Neuron.zeroGrad (n : Neuron) : Neuron :=
  ⟨n.w.map (fun p => ⟨p.data, some 0⟩), ⟨n.b.data, some 0⟩, n.nonlin⟩

/-- The `Layer` module: an ordered list of Neurons. -/
structure Layer where
  neurons : List Neuron
deriving DecidableEq

/-- `Layer.__init__(nin, nout, nonlin)`. -/
def Layer.make (nin nout : Nat) (nonlin : Bool) (r : Nat → Nat → ℚ) : Layer :=
  ⟨(List.range nout).map (fun j => Neuron.make nin nonlin (r j))⟩

/-- `Layer.parameters`: `[p for n in self.neurons for p in n.parameters()]`. -/
def Layer.parameters (l : Layer) : List PElem :=
  (l.neurons.map Neuron.parameters).flatten

/-- `Module.zero_grad` specialized to a Layer. -/
def Layer.zeroGrad (l : Layer) : Layer := ⟨l.neurons.map Neuron.zeroGrad⟩

/-- The `MLP` module: an ordered pipeline of Layers. -/
structure MLP where
  layers : List Layer
deriving DecidableEq

/-- `MLP.__init__(nin, nouts)`: `sz = [nin] + nouts` and layer `i` maps
`sz[i]` inputs to `sz[i+1]` outputs with
`nonlin = (i != len(nouts) - 1)` — every layer is ReLU except the last,
which stays linear. -/
def MLP.make (nin : Nat) (nouts : List Nat) (r : Nat → Nat → Nat → ℚ) : MLP :=
  let sz := nin :: nouts
  ⟨(List.range nouts.length).map
    (fun i => Layer.make (sz.getD i 0) (sz.getD (i + 1) 0)
      (decide (i ≠ nouts.length - 1)) (r i))⟩

/-- `MLP.parameters`: `[p for layer in self.layers for p in layer.parameters()]`. -/
def MLP.parameters (m : MLP) : List PElem :=
  (m.layers.map Layer.parameters).flatten

/-- `Module.zero_grad` specialized to an MLP. -/
def MLP.zeroGrad (m : MLP) : MLP := ⟨m.layers.map Layer.zeroGrad⟩

/-- Shape discriminator for payloads. -/
def Val.isScalar : Val → Bool
  | .scalar _ => true
  | .arr _ => false

/-- All payloads of a graph are scalars (the only shape the nn modules ever
build, since every parameter and input Element wraps one float). -/
def AllScalar (g : Graph) : Prop := ∀ n ∈ g, n.data.isScalar = true

instance (g : Graph) : Decidable (AllScalar g) := by
  unfold AllScalar; infer_instance

/-- Success discriminator for embedded python calls ("returned normally
rather than raising"). -/
def isOkE {α : Type} : Except String α → Bool
  | .ok _ => true
  | .error _ => false

/-! Concrete graphs used by the claims, each exactly what the python
expressions build through the operation builders (the builder equations are
restated inside the theorems). -/

/-- Graph after `b = a * a` on the scalar leaf `a` (node 0): node 1 is the
product. -/
def c3mid (a : ℚ) : Graph := [leafN a, ⟨Val.scalar (a * a), Op.mul 0 0⟩]

/-- Graph after `c = a * a + a`: node 2 is the sum. -/
def c3g (a : ℚ) : Graph := c3mid a ++ [⟨Val.scalar (a * a + a), Op.add 1 0⟩]

/-- Graph after `out = a[i]` on an array leaf `a` (node 0): node 1 holds the
indexed scalar with `a` as its only child. -/
def c2g (xs : List ℚ) (i : Nat) : Graph :=
  [⟨Val.arr xs, Op.leaf⟩, ⟨Val.scalar (xs.getD i 0), Op.getitem 0 i⟩]

/-- Graph after `out = a.relu()` on the scalar leaf `a` (node 0). -/
def reluG (x : ℚ) : Graph :=
  [leafN x, ⟨Val.scalar (if x < 0 then 0 else x), Op.relu 0⟩]

/-- Depth-one graph `c = a * b` over two scalar leaves; nodes 0 and 1 are
the leaves (a module's two parameters), node 2 the root. -/
def gM (a b : ℚ) : Graph := [leafN a, leafN b, ⟨Val.scalar (a * b), Op.mul 0 1⟩]

/-- The Elements owned by `Neuron(1, nonlin=False)` with weight 1 and bias 0
(nodes 0 and 1, its parameters) plus the caller's input Element x = 1
(node 2). -/
def gN0 : Graph := [leafN 1, leafN 0, leafN 1]

/-- Graph after invoking that Neuron on `[x]`: node 3 is `w0 * x0` and
node 4 the root `b + w0 * x0` (see the builder equation in the C5
counterexample). -/
def gN : Graph :=
  gN0 ++ [⟨Val.scalar (1 * 1), Op.mul 0 2⟩, ⟨Val.scalar (0 + 1 * 1), Op.add 1 3⟩]

/-- Depth-two graph `x; y = x + x; z = y + y` over the scalar leaf x = 1. -/
def zG : Graph :=
  [leafN 1, ⟨Val.scalar (1 + 1), Op.add 0 0⟩,
    ⟨Val.scalar ((1 + 1) + (1 + 1)), Op.add 1 1⟩]

/-! General lemmas about the backward sweep.  The key structural facts are:
the depth-first traversal only ever reaches indices at most the root (for a
well-formed graph, `_prev` edges strictly decrease the index), and each
node's backward closure only writes the gradients of its own operands, which
sit strictly below it.  Together these give that the root's seeded gradient
of ones survives the whole sweep. -/

lemma WF_spec {g : Graph} (hw : WF g) {i : Idx} (h : i < g.length) :
    ∀ j ∈ operands (nodeAt g i).op, j < i := by
  intro j hj
  have hmem : (i, g.get ⟨i, h⟩) ∈ g.enum := by
    rw [List.mk_mem_enum_iff_getElem?]
    simp [List.getElem?_eq_getElem h]
  have := hw _ hmem j
  simp only [nodeAt, List.getD_eq_getElem?_getD, List.getElem?_eq_getElem h] at hj
  exact this (by simpa using hj)

lemma operands_out {g : Graph} {i : Idx} (h : g.length ≤ i) :
    operands (nodeAt g i).op = [] := by
  simp [nodeAt, List.getD_eq_getElem?_getD, List.getElem?_eq_none h, operands]

lemma operands_lt {g : Graph} (hw : WF g) {i : Idx} :
    ∀ j ∈ operands (nodeAt g i).op, j < i := by
  rcases lt_or_le i g.length with h | h
  · exact WF_spec hw h
  · simp [operands_out h]

lemma upd_apply_ne {m : GradMap} {i j : Idx} {v : Option Val} (h : j ≠ i) :
    upd m i v j = m j := by
  simp [upd, h]

lemma ensure_apply_ne {g : Graph} {m : GradMap} {a j : Idx} (h : j ≠ a) :
    ensure g m a j = m j := by
  unfold ensure
  cases m a <;> simp [upd_apply_ne h]

lemma accum_apply_ne {g : Graph} {m m2 : GradMap} {a j : Idx} {t : Val}
    (hok : accum g m a t = .ok m2) (h : j ≠ a) : m2 j = m j := by
  unfold accum at hok
  cases hi : iadd (gradD g m a) t with
  | none => rw [hi] at hok; cases hok
  | some v =>
    rw [hi] at hok
    cases hok
    exact upd_apply_ne h

lemma bind_ok {α β : Type} {x : Except String α} {f : α → Except String β} {y : β}
    (h : (x >>= f) = .ok y) : ∃ a, x = .ok a ∧ f a = .ok y := by
  cases x with
  | error e => exact absurd h (by simp [Bind.bind, Except.bind])
  | ok a => exact ⟨a, rfl, by simpa [Bind.bind, Except.bind] using h⟩

lemma propagate_preserves {g : Graph} {m m2 : GradMap} {v : Idx}
    (hok : propagate g m v = .ok m2) :
    ∀ j, j ∉ operands (nodeAt g v).op → m2 j = m j := by
  intro j hj
  unfold propagate at hok
  cases hop : (nodeAt g v).op with
  | leaf => rw [hop] at hok; cases hok; rfl
  | add a b =>
    rw [hop] at hok
    rw [hop, operands] at hj
    simp only [List.mem_cons, List.not_mem_nil, or_false, not_or] at hj
    obtain ⟨gout1, h1, hok⟩ := bind_ok hok
    obtain ⟨m3, h2, hok⟩ := bind_ok hok
    obtain ⟨gout2, h3, hok⟩ := bind_ok hok
    rw [accum_apply_ne hok hj.2, accum_apply_ne h2 hj.1,
      ensure_apply_ne hj.2, ensure_apply_ne hj.1]
  | mul a b =>
    rw [hop] at hok
    rw [hop, operands] at hj
    simp only [List.mem_cons, List.not_mem_nil, or_false, not_or] at hj
    obtain ⟨gout1, h1, hok⟩ := bind_ok hok
    obtain ⟨t1, ht1, hok⟩ := bind_ok hok
    obtain ⟨m3, h2, hok⟩ := bind_ok hok
    obtain ⟨gout2, h3, hok⟩ := bind_ok hok
    obtain ⟨t2, ht2, hok⟩ := bind_ok hok
    rw [accum_apply_ne hok hj.2, accum_apply_ne h2 hj.1,
      ensure_apply_ne hj.2, ensure_apply_ne hj.1]
  | pow a p => rw [hop] at hok; cases hok
  | relu a =>
    rw [hop] at hok
    rw [hop, operands] at hj
    simp only [List.mem_cons, List.not_mem_nil, or_false, not_or] at hj
    obtain ⟨gout, h1, hok⟩ := bind_ok hok
    obtain ⟨t, ht, hok⟩ := bind_ok hok
    rw [accum_apply_ne hok hj, ensure_apply_ne hj]
  | getitem a i => rw [hop] at hok; cases hok; rfl

lemma prevs_lt {g : Graph} (hw : WF g) {i : Idx} : ∀ c ∈ prevs g i, c < i := by
  intro c hc
  exact operands_lt hw c (List.mem_dedup.mp hc)

lemma dfsAux_le {g : Graph} (hw : WF g) (root : Idx) :
    ∀ fuel i (tv : List Idx × List Idx), i ≤ root →
      (∀ x ∈ tv.1, x ≤ root) → (∀ x ∈ tv.2, x ≤ root) →
      (∀ x ∈ (dfsAux g fuel i tv).1, x ≤ root) ∧
      (∀ x ∈ (dfsAux g fuel i tv).2, x ≤ root) := by
  intro fuel
  induction fuel with
  | zero => intro i tv _ h1 h2; exact ⟨h1, h2⟩
  | succ fuel ih =>
    intro i tv hi h1 h2
    rw [dfsAux]
    by_cases hmem : i ∈ tv.2
    · simp only [hmem, if_true]
      exact ⟨h1, h2⟩
    · simp only [hmem, if_false]
      have hchild : ∀ c ∈ prevs g i, c ≤ root :=
        fun c hc => le_of_lt (lt_of_lt_of_le (prevs_lt hw c hc) hi)
      have hfold : ∀ (l : List Idx) (tv0 : List Idx × List Idx),
          (∀ c ∈ l, c ≤ root) →
          (∀ x ∈ tv0.1, x ≤ root) → (∀ x ∈ tv0.2, x ≤ root) →
          (∀ x ∈ (l.foldl (fun acc c => dfsAux g fuel c acc) tv0).1, x ≤ root) ∧
          (∀ x ∈ (l.foldl (fun acc c => dfsAux g fuel c acc) tv0).2, x ≤ root) := by
        intro l
        induction l with
        | nil => intro tv0 _ ha hb; exact ⟨ha, hb⟩
        | cons c cs ihl =>
          intro tv0 hcl ha hb
          rw [List.foldl_cons]
          have hstep := ih c tv0 (hcl c (List.mem_cons_self c cs)) ha hb
          exact ihl _ (fun d hd => hcl d (List.mem_cons_of_mem c hd)) hstep.1 hstep.2
      have hinit2 : ∀ x ∈ (tv.1, i :: tv.2).2, x ≤ root := by
        intro x hx
        rcases List.mem_cons.mp hx with h | h
        · exact h ▸ hi
        · exact h2 x h
      have hmain := hfold (prevs g i) (tv.1, i :: tv.2) hchild h1 hinit2
      refine ⟨?_, hmain.2⟩
      intro x hx
      rcases List.mem_append.mp hx with h | h
      · exact hmain.1 x h
      · rcases List.mem_singleton.mp h with rfl
        exact hi

lemma buildTopo_le {g : Graph} (hw : WF g) (root : Idx) :
    ∀ v ∈ buildTopo g root, v ≤ root := by
  have h := dfsAux_le hw root (root + 1) root ([], [])
    (le_refl root) (by intro x hx; cases hx) (by intro x hx; cases hx)
  exact h.1

lemma sweep_keeps_root {g : Graph} (hw : WF g) (root : Idx) :
    ∀ (l : List Idx) (m m2 : GradMap), (∀ v ∈ l, v ≤ root) →
      l.foldlM (fun acc v => propagate g acc v) m = .ok m2 → m2 root = m root := by
  intro l
  induction l with
  | nil =>
    intro m m2 _ h
    cases h
    rfl
  | cons v vs ih =>
    intro m m2 hle h
    rw [List.foldlM_cons] at h
    obtain ⟨m1, h1, h2⟩ := bind_ok h
    have hroot : root ∉ operands (nodeAt g v).op := by
      intro hmem
      have := operands_lt hw root hmem
      exact absurd (hle v (List.mem_cons_self v vs)) (not_le.mpr this)
    have := propagate_preserves h1 root hroot
    rw [ih m1 m2 (fun x hx => hle x (List.mem_cons_of_mem v hx)) h2, this]

/-- After any successful `backward`, the root's gradient is the freshly
seeded ones of its own shape, whatever was stored there before: no node of
the reachable subgraph has the root among its producers, so nothing in the
reverse sweep touches the root again. -/
lemma backward_root_ones {g : Graph} {m m2 : GradMap} {root : Idx} (hw : WF g)
    (hok : backward g m root = .ok m2) :
    m2 root = some (onesLike (dataAt g root)) := by
  unfold backward at hok
  have hle : ∀ v ∈ (buildTopo g root).reverse, v ≤ root := by
    intro v hv
    exact buildTopo_le hw root v (List.mem_reverse.mp hv)
  rw [sweep_keeps_root hw root _ _ _ hle hok]
  simp [upd]

/-! Lemmas for the neuron invocation: over all-scalar graphs (the only kind
the nn modules ever build) every multiply/add/relu builder succeeds, so
`Neuron.__call__` returns normally whatever the input length. -/

lemma allScalar_dataAt {g : Graph} (h : AllScalar g) (i : Idx) :
    ∃ q, dataAt g i = Val.scalar q := by
  unfold dataAt nodeAt
  rcases lt_or_le i g.length with hi | hi
  · rw [List.getD_eq_getElem?_getD, List.getElem?_eq_getElem hi]
    have hsc := h g[i] (List.getElem_mem hi)
    cases hd : g[i].data with
    | scalar q => exact ⟨q, by simp [hd]⟩
    | arr xs => rw [hd] at hsc; cases hsc
  · rw [List.getD_eq_getElem?_getD, List.getElem?_eq_none hi]
    exact ⟨0, rfl⟩

lemma allScalar_append {g : Graph} {q : ℚ} {op : Op} (h : AllScalar g) :
    AllScalar (g ++ [⟨Val.scalar q, op⟩]) := by
  intro n hn
  rcases List.mem_append.mp hn with h1 | h1
  · exact h n h1
  · rcases List.mem_singleton.mp h1 with rfl
    rfl

lemma mulE_scalar_ok {g : Graph} (h : AllScalar g) (a b : Idx) :
    ∃ g2, Element.mulE g a b = .ok (g2, g.length) ∧ AllScalar g2 := by
  obtain ⟨qa, ha⟩ := allScalar_dataAt h a
  obtain ⟨qb, hb⟩ := allScalar_dataAt h b
  refine ⟨g ++ [⟨Val.scalar (qa * qb), .mul a b⟩], ?_, allScalar_append h⟩
  unfold Element.mulE
  rw [ha, hb]
  rfl

lemma addE_scalar_ok {g : Graph} (h : AllScalar g) (a b : Idx) :
    ∃ g2, Element.addE g a b = .ok (g2, g.length) ∧ AllScalar g2 := by
  obtain ⟨qa, ha⟩ := allScalar_dataAt h a
  obtain ⟨qb, hb⟩ := allScalar_dataAt h b
  refine ⟨g ++ [⟨Val.scalar (qa + qb), .add a b⟩], ?_, allScalar_append h⟩
  unfold Element.addE
  rw [ha, hb]
  rfl

lemma reluE_scalar_ok {g : Graph} (h : AllScalar g) (a : Idx) :
    ∃ g2, Element.reluE g a = .ok (g2, g.length) ∧ AllScalar g2 := by
  obtain ⟨qa, ha⟩ := allScalar_dataAt h a
  refine ⟨g ++ [⟨Val.scalar (if qa < 0 then 0 else qa), .relu a⟩], ?_,
    allScalar_append h⟩
  unfold Element.reluE
  rw [ha]
  rfl

lemma sumFold_scalar_ok :
    ∀ (l : List (Idx × Idx)) (g : Graph) (acc : Idx), AllScalar g →
      ∃ g2 i2, l.foldlM sumStep (g, acc) = .ok (g2, i2) ∧ AllScalar g2 := by
  intro l
  induction l with
  | nil =>
    intro g acc h
    exact ⟨g, acc, rfl, h⟩
  | cons wx rest ih =>
    intro g acc h
    obtain ⟨g2, hmul, h2⟩ := mulE_scalar_ok h wx.1 wx.2
    obtain ⟨g3, hadd, h3⟩ := addE_scalar_ok h2 acc g.length
    obtain ⟨g4, i4, hrest, h4⟩ := ih g3 g2.length h3
    refine ⟨g4, i4, ?_, h4⟩
    rw [List.foldlM_cons]
    have hstep : sumStep (g, acc) wx = .ok (g3, g2.length) := by
      unfold sumStep
      dsimp only
      rw [hmul]
      simpa [bind, Except.bind] using hadd
    rw [hstep]
    simpa [bind, Except.bind] using hrest

lemma callG_scalar_ok {g : Graph} (h : AllScalar g) (w : List Idx) (bI : Idx)
    (nonlin : Bool) (x : List Idx) :
    ∃ g2 i2, Neuron.callG g w bI nonlin x = .ok (g2, i2) := by
  obtain ⟨g1, act, hfold, h1⟩ := sumFold_scalar_ok (List.zip w x) g bI h
  unfold Neuron.callG
  rw [hfold]
  cases nonlin with
  | false => exact ⟨g1, act, by simp [bind, Except.bind]⟩
  | true =>
    obtain ⟨g2, hrelu, _⟩ := reluE_scalar_ok h1 act
    exact ⟨g2, g1.length, by simp [bind, Except.bind, hrelu]⟩

/-- Python's `zip` truncates to the shorter sequence, so only the first
`len(x)` weights ever participate. -/
lemma zip_take_left {α β : Type} :
    ∀ (w : List α) (x : List β), List.zip (w.take x.length) x = List.zip w x := by
  intro w
  induction w with
  | nil => intro x; simp
  | cons wh wt ih =>
    intro x
    cases x with
    | nil => simp
    | cons xh xt =>
      simp only [List.length_cons, List.take_succ_cons, List.zip_cons_cons]
      rw [ih xt]

/-! The claims. -/

/-- C1: the claim states that for every scalar leaf a and nonzero integer
exponent p, Backward(Power(a, p)) terminates normally and leaves a.grad
equal to p * a.data ** (p - 1).  The code disagrees: `__pow__`'s backward
closure calls `other._ensure_grad_initialized()` on the plain int exponent,
so at a = 3, p = 2 the forward pass builds the node (data 9) but `backward`
raises AttributeError instead of terminating with a.grad == 6. -/
theorem C1_pow_backward_raises :
    Element.powE [leafN 3] 0 2 =
      ([leafN 3, ⟨Val.scalar ((3 : ℚ) ^ (2 : ℤ)), Op.pow 0 2⟩], 1) ∧
    backward [leafN 3, ⟨Val.scalar ((3 : ℚ) ^ (2 : ℤ)), Op.pow 0 2⟩] gnone 1 =
      .error "AttributeError: int object has no attribute _ensure_grad_initialized" :=
  ⟨rfl, rfl⟩

/-- C3: for every scalar leaf a, building c = a * a + a through the
operation builders and running Backward(c) leaves a.grad = 2 * a.data + 1:
the leaf is consumed along two paths (twice by the multiply, once by the
add) and receives the sum of the three contributions. -/
theorem C3_shared_leaf_gradient_accumulates (a : ℚ) :
    Element.mulE [leafN a] 0 0 = .ok (c3mid a, 1) ∧
    Element.addE (c3mid a) 1 0 = .ok (c3g a, 2) ∧
    (backward (c3g a) gnone 2).map (fun m => m 0) =
      .ok (some (Val.scalar (2 * a + 1))) := by
  refine ⟨rfl, rfl, ?_⟩
  have h : (backward (c3g a) gnone 2).map (fun m => m 0)
      = .ok (some (Val.scalar (0 + 1 + a * (0 + 1) + a * (0 + 1)))) := rfl
  rw [h]
  norm_num
  ring

/-- C4 counterexample: the claim promises elementwise ReLU for every scalar
or array-shaped Value, but on the array payload [-1, 2] the source's
`0 if self.data < 0 else self.data` truth-tests a two-element numpy array,
which raises ValueError instead of returning [0, 2]. -/
theorem C4_relu_array_counterexample :
    Element.reluE [⟨Val.arr [-1, 2], Op.leaf⟩] 0 =
      .error "ValueError: the truth value of an array with other than one element is ambiguous" :=
  rfl

/-- C4 (amended to scalar Values, as the counterexample forces): for every
scalar Value a, ReLU(a) returns a Value whose data is max(0, a.data), a full
Backward leaves a.grad = 1 exactly when the output is positive and 0
otherwise (input 0 gives output 0 and gradient 0), and the propagation step
under an arbitrary upstream gradient adds exactly that upstream gradient
where the output is positive and exactly 0 where the output is 0. -/
theorem C4_relu_scalar_gradient (x gout : ℚ) :
    Element.reluE [leafN x] 0 = .ok (reluG x, 1) ∧
    dataAt (reluG x) 1 = Val.scalar (max 0 x) ∧
    (backward (reluG x) gnone 1).map (fun m => m 0) =
      .ok (some (Val.scalar (if 0 < x then 1 else 0))) ∧
    (propagate (reluG x) (upd gnone 1 (some (Val.scalar gout))) 1).map (fun m => m 0) =
      .ok (some (Val.scalar (if 0 < x then gout else 0))) := by
  have hmax : (if x < 0 then (0 : ℚ) else x) = max 0 x := by
    rcases lt_or_le x 0 with h | h
    · rw [if_pos h, max_eq_left h.le]
    · rw [if_neg (not_lt.mpr h), max_eq_right h]
  refine ⟨rfl, ?_, ?_, ?_⟩
  · show Val.scalar (if x < 0 then 0 else x) = Val.scalar (max 0 x)
    rw [hmax]
  · have h : (backward (reluG x) gnone 1).map (fun m => m 0)
        = .ok (some (Val.scalar
            (0 + (if 0 < (if x < 0 then (0 : ℚ) else x) then 1 else 0) * 1))) := rfl
    rw [h]
    rcases lt_or_le x 0 with hx | hx
    · rw [if_pos hx]
      norm_num [not_lt.mpr hx.le, asymm hx]
    · rw [if_neg (not_lt.mpr hx)]
      rcases eq_or_lt_of_le hx with heq | hpos
      · rw [← heq]
        norm_num
      · rw [if_pos hpos]
        norm_num
  · have h : (propagate (reluG x) (upd gnone 1 (some (Val.scalar gout))) 1).map (fun m => m 0)
        = .ok (some (Val.scalar
            (0 + (if 0 < (if x < 0 then (0 : ℚ) else x) then 1 else 0) * gout))) := rfl
    rw [h]
    rcases lt_or_le x 0 with hx | hx
    · rw [if_pos hx]
      norm_num [asymm hx]
    · rw [if_neg (not_lt.mpr hx)]
      rcases eq_or_lt_of_le hx with heq | hpos
      · rw [← heq]
        norm_num
      · rw [if_pos hpos, if_pos hpos]
        norm_num

/-- C2 counterexample: on the array leaf a = [1, 2, 3], indexing out = a[1]
and calling Backward(out) leaves a.grad untouched (still None), not the
claimed one-hot accumulation [0, 1, 0] at position 1: `__getitem__` wires
the producer edge but never attaches a backward closure. -/
theorem C2_getitem_counterexample :
    Element.getitemE [⟨Val.arr [1, 2, 3], Op.leaf⟩] 0 1 = .ok (c2g [1, 2, 3] 1, 1) ∧
    (backward (c2g [1, 2, 3] 1) gnone 1).map (fun m => m 0) = .ok none ∧
    (Except.ok (none : Option Val) : Except String (Option Val)) ≠
      .ok (some (Val.arr [0, 1, 0])) := by
  refine ⟨rfl, rfl, ?_⟩
  simp

/-- C2 (amended, as the counterexample forces): for every array-shaped Value
a and in-range index i, Index(a, i) returns a Value over a.data[i] whose
only producer is a, but its propagation step is a no-op: Backward seeds the
result's gradient with 1 and then adds nothing at all into a.grad, which
stays uninitialized — no position of a.grad receives the result's
gradient. -/
theorem C2_getitem_sole_producer_no_propagation (xs : List ℚ) (i : Nat)
    (h : i < xs.length) :
    Element.getitemE [⟨Val.arr xs, Op.leaf⟩] 0 i = .ok (c2g xs i, 1) ∧
    prevs (c2g xs i) 1 = [0] ∧
    (backward (c2g xs i) gnone 1).map (fun m => (m 0, m 1)) =
      .ok (none, some (Val.scalar 1)) := by
  refine ⟨?_, rfl, rfl⟩
  have hd : getitemData (Val.arr xs) i = .ok (Val.scalar (xs.get ⟨i, h⟩)) := dif_pos h
  unfold Element.getitemE
  rw [show dataAt [⟨Val.arr xs, Op.leaf⟩] 0 = Val.arr xs from rfl, hd]
  simp [c2g, List.getD_eq_getElem?_getD, List.getElem?_eq_getElem h]

/-- C2 witness: the amended theorem applied at a = [1, 2, 3], i = 0. -/
theorem C2_witness :
    0 < ([1, 2, 3] : List ℚ).length ∧
    (backward (c2g [1, 2, 3] 0) gnone 1).map (fun m => (m 0, m 1)) =
      .ok (none, some (Val.scalar 1)) :=
  ⟨by norm_num, (C2_getitem_sole_producer_no_propagation [1, 2, 3] 0 (by norm_num)).2.2⟩

/-- C5 counterexample: `Neuron(1, nonlin=False)` with weight 1 and bias 0
invoked on the input Element x = 1 builds the graph gN with the weight at
node 0 and the bias at node 1 (the module's parameters).  A fresh Backward
gives the weight gradient 1.  But `zero_grad` (which resets only the two
parameters, nodes 0 and 1) followed by Backward gives the weight gradient 2,
not the fresh value 1, and a second Backward without zero_grad gives 3, not
double the fresh value: the interior nodes 3 and 4 keep their stale
gradients and the sweep re-propagates them. -/
theorem C5_zero_grad_counterexample :
    Neuron.callG gN0 [0] 1 false [2] = .ok (gN, 4) ∧
    (backward gN gnone 4).map (fun m => m 0) = .ok (some (Val.scalar 1)) ∧
    (run2 gN gnone 4 (zeroGradIdx [0, 1])).map (fun m => m 0) =
      .ok (some (Val.scalar 2)) ∧
    (run2 gN gnone 4 id).map (fun m => m 0) = .ok (some (Val.scalar 3)) ∧
    (2 : ℚ) ≠ 1 ∧ (3 : ℚ) ≠ 2 * 1 := by
  refine ⟨rfl, ?_, ?_, ?_, by norm_num, by norm_num⟩
  · have h : (backward gN gnone 4).map (fun m => m 0)
        = .ok (some (Val.scalar (0 + 1 * (0 + 1)))) := rfl
    rw [h]
    norm_num
  · have h : (run2 gN gnone 4 (zeroGradIdx [0, 1])).map (fun m => m 0)
        = .ok (some (Val.scalar (0 + 1 * (0 + 1 + 1)))) := rfl
    rw [h]
    norm_num
  · have h : (run2 gN gnone 4 id).map (fun m => m 0)
        = .ok (some (Val.scalar (0 + 1 * (0 + 1) + 1 * (0 + 1 + 1)))) := rfl
    rw [h]
    norm_num

/-- C5 (amended, as the counterexample forces): the claimed identities do
hold when every node reachable from the root other than the root itself is
a parameter the module resets — for example the one-operation graph
c = a * b over the two parameter leaves.  There a fresh Backward gives
gradients (b, a, 1), zero_grad of the parameters followed by Backward
reproduces exactly the fresh gradients, and Backward twice without zero_grad
doubles the leaves' gradients (the root's stays 1).  With interior
non-parameter nodes the gradients instead exceed these values (see the
counterexample). -/
theorem C5_depth_one_graphs (a b : ℚ) :
    Element.mulE [leafN a, leafN b] 0 1 = .ok (gM a b, 2) ∧
    (backward (gM a b) gnone 2).map (fun m => (m 0, m 1, m 2)) =
      .ok (some (Val.scalar b), some (Val.scalar a), some (Val.scalar 1)) ∧
    (run2 (gM a b) gnone 2 (zeroGradIdx [0, 1])).map (fun m => (m 0, m 1, m 2)) =
      .ok (some (Val.scalar b), some (Val.scalar a), some (Val.scalar 1)) ∧
    (run2 (gM a b) gnone 2 id).map (fun m => (m 0, m 1, m 2)) =
      .ok (some (Val.scalar (2 * b)), some (Val.scalar (2 * a)),
        some (Val.scalar 1)) := by
  refine ⟨rfl, ?_, ?_, ?_⟩
  · have h : (backward (gM a b) gnone 2).map (fun m => (m 0, m 1, m 2))
        = .ok (some (Val.scalar (0 + b * 1)), some (Val.scalar (0 + a * 1)),
            some (Val.scalar 1)) := rfl
    rw [h]
    norm_num
  · have h : (run2 (gM a b) gnone 2 (zeroGradIdx [0, 1])).map (fun m => (m 0, m 1, m 2))
        = .ok (some (Val.scalar (0 + b * 1)), some (Val.scalar (0 + a * 1)),
            some (Val.scalar 1)) := rfl
    rw [h]
    norm_num
  · have h : (run2 (gM a b) gnone 2 id).map (fun m => (m 0, m 1, m 2))
        = .ok (some (Val.scalar (0 + b * 1 + b * 1)),
            some (Val.scalar (0 + a * 1 + a * 1)), some (Val.scalar 1)) := rfl
    rw [h]
    simp only [Except.ok.injEq, Option.some.injEq, Val.scalar.injEq, Prod.mk.injEq]
    refine ⟨by ring, by ring, trivial⟩

/-- C9: on every successful call of Backward(root) over a well-formed graph,
root.grad ends as the ones of root.data's shape whatever was stored there
before (the seed overwrites, and no reachable node has the root among its
producers, so the sweep never touches it again); hence over repeated
Backward calls without zero_grad the root's own gradient stays exactly 1
while its ancestors' gradients accumulate — on x; y = x + x; z = y + y the
leaf gradient grows from 4 to 12 across two calls while the root stays
at 1. -/
theorem C9_root_grad_overwritten_with_ones :
    (∀ (g : Graph) (m m2 : GradMap) (root : Idx), WF g →
      backward g m root = .ok m2 → m2 root = some (onesLike (dataAt g root))) ∧
    (backward zG gnone 2).map (fun m => (m 0, m 2)) =
      .ok (some (Val.scalar 4), some (Val.scalar 1)) ∧
    (run2 zG gnone 2 id).map (fun m => (m 0, m 2)) =
      .ok (some (Val.scalar 12), some (Val.scalar 1)) := by
  refine ⟨fun g m m2 root hw hok => backward_root_ones hw hok, ?_, ?_⟩
  · have h : (backward zG gnone 2).map (fun m => (m 0, m 2))
        = .ok (some (Val.scalar (0 + (0 + 1 + 1) + (0 + 1 + 1))),
            some (Val.scalar 1)) := rfl
    rw [h]
    norm_num
  · have h : (run2 zG gnone 2 id).map (fun m => (m 0, m 2))
        = .ok (some (Val.scalar
              (0 + (0 + 1 + 1) + (0 + 1 + 1) + (0 + 1 + 1 + 1 + 1) + (0 + 1 + 1 + 1 + 1))),
            some (Val.scalar 1)) := rfl
    rw [h]
    norm_num

/-- C9 witness: the universally quantified part applied to the concrete
well-formed graph zG with an uninitialized gradient state. -/
theorem C9_witness :
    WF zG ∧ (backward zG gnone 2).map (fun m => m 2) =
      .ok (some (onesLike (dataAt zG 2))) := by
  refine ⟨by decide, ?_⟩
  obtain ⟨m2, hm⟩ : ∃ m2, backward zG gnone 2 = .ok m2 := ⟨_, rfl⟩
  rw [hm]
  have := C9_root_grad_overwritten_with_ones.1 zG gnone m2 2 (by decide) hm
  simp [Except.map, this]

lemma neuron_zeroGrad_grad {n : Neuron} :
    ∀ p ∈ (Neuron.zeroGrad n).parameters, p.grad = some 0 := by
  intro p hp
  unfold Neuron.zeroGrad Neuron.parameters at hp
  rcases List.mem_append.mp hp with h | h
  · obtain ⟨q, _, rfl⟩ := List.mem_map.mp h
    rfl
  · rcases List.mem_singleton.mp h with rfl
    rfl

lemma layer_zeroGrad_grad {l : Layer} :
    ∀ p ∈ (Layer.zeroGrad l).parameters, p.grad = some 0 := by
  intro p hp
  unfold Layer.zeroGrad Layer.parameters at hp
  obtain ⟨ps, hps, hpmem⟩ := List.mem_flatten.mp hp
  obtain ⟨n, hn, rfl⟩ := List.mem_map.mp hps
  obtain ⟨n0, _, rfl⟩ := List.mem_map.mp hn
  exact neuron_zeroGrad_grad p hpmem

lemma mlp_zeroGrad_grad {m : MLP} :
    ∀ p ∈ (MLP.zeroGrad m).parameters, p.grad = some 0 := by
  intro p hp
  unfold MLP.zeroGrad MLP.parameters at hp
  obtain ⟨ps, hps, hpmem⟩ := List.mem_flatten.mp hp
  obtain ⟨l, hl, rfl⟩ := List.mem_map.mp hps
  obtain ⟨l0, _, rfl⟩ := List.mem_map.mp hl
  exact layer_zeroGrad_grad p hpmem

lemma map_grad_replicate {ps : List PElem} (h : ∀ p ∈ ps, p.grad = some 0) :
    ps.map PElem.grad = List.replicate ps.length (some (0 : ℚ)) := by
  rw [← List.length_map ps PElem.grad]
  rw [List.eq_replicate_length]
  intro b hb
  obtain ⟨p, hp, rfl⟩ := List.mem_map.mp hb
  exact h p hp

/-- C6: for every module variant (Neuron, Layer, MLP) in any state,
zero_grad sets the grad of every parameter it owns to the numeric zero of
that parameter's shape (all nn parameters are scalars, and `p.grad = 0`
stores exactly the scalar zero), and it needs no prior Backward call — the
modules here are arbitrary, including ones whose grads are still None. -/
theorem C6_zero_grad_all_variants (n : Neuron) (l : Layer) (mlp : MLP) :
    (Neuron.zeroGrad n).parameters.map PElem.grad =
      List.replicate (Neuron.zeroGrad n).parameters.length (some (0 : ℚ)) ∧
    (Layer.zeroGrad l).parameters.map PElem.grad =
      List.replicate (Layer.zeroGrad l).parameters.length (some (0 : ℚ)) ∧
    (MLP.zeroGrad mlp).parameters.map PElem.grad =
      List.replicate (MLP.zeroGrad mlp).parameters.length (some (0 : ℚ)) :=
  ⟨map_grad_replicate neuron_zeroGrad_grad,
   map_grad_replicate layer_zeroGrad_grad,
   map_grad_replicate mlp_zeroGrad_grad⟩

/-- C7 counterexample: a Neuron with input width 2 (weights 1 and 2 at
nodes 0 and 1, bias 0 at node 2) invoked on the single input Element 5
(node 3) does not fail at all: `zip` truncates the weights to the one
available input and the call returns normally with 1 * 5 + 0 = 5, with no
ShapeMismatch condition ever raised. -/
theorem C7_no_shape_mismatch_counterexample :
    Neuron.callG [leafN 1, leafN 2, leafN 0, leafN 5] [0, 1] 2 false [3] =
      .ok ([leafN 1, leafN 2, leafN 0, leafN 5,
        ⟨Val.scalar (1 * 5), Op.mul 0 3⟩, ⟨Val.scalar (0 + 1 * 5), Op.add 2 4⟩], 5) :=
  rfl

/-- C7 (amended, as the counterexample forces): invoking a Unit whose input
sequence length differs from its configured width does not fail — the
source validates nothing.  `zip` truncates to the shorter sequence, so the
output equals the output on the first len(x) weights, and over all-scalar
graphs the graph-level invocation always returns normally. -/
theorem C7_wrong_width_returns_normally (w : List ℚ) (b : ℚ) (x : List ℚ)
    (nonlin : Bool) (g : Graph) (wI : List Idx) (bI : Idx) (xI : List Idx)
    (hg : AllScalar g) :
    Neuron.call w b nonlin x = Neuron.call (w.take x.length) b nonlin x ∧
    isOkE (Neuron.callG g wI bI nonlin xI) = true := by
  constructor
  · unfold Neuron.call
    rw [zip_take_left]
  · obtain ⟨g2, i2, hok⟩ := callG_scalar_ok hg wI bI nonlin xI
    rw [hok]
    rfl

/-- C7 witness: the amended theorem applied to the counterexample's graph
and the concrete width-2 Neuron invoked on one input. -/
theorem C7_witness :
    AllScalar [leafN 1, leafN 2, leafN 0, leafN 5] ∧
    (Neuron.call [1, 2] 0 false [5] =
       Neuron.call (([1, 2] : List ℚ).take ([5] : List ℚ).length) 0 false [5] ∧
     isOkE (Neuron.callG [leafN 1, leafN 2, leafN 0, leafN 5] [0, 1] 2 false [3]) = true) :=
  ⟨by decide,
   C7_wrong_width_returns_normally [1, 2] 0 [5] false
     [leafN 1, leafN 2, leafN 0, leafN 5] [0, 1] 2 [3] (by decide)⟩

/-- C8: an MLP built with nin = 3 and layer widths [4, 4, 1] owns exactly
(3*4+4) + (4*4+4) + (4*1+1) = 41 parameter Values, and parameters() returns
them in deterministic construction order: layer by layer, neuron by neuron,
each neuron's weights in order followed by its bias (`r i j k` is the random
draw for layer i, neuron j, weight k). -/
theorem C8_mlp_parameters_41 (r : Nat → Nat → Nat → ℚ) :
    (MLP.make 3 [4, 4, 1] r).parameters.length = 41 ∧
    (MLP.make 3 [4, 4, 1] r).parameters =
      ((List.range 4).map (fun j =>
          ((List.range 3).map (fun k => (⟨r 0 j k, none⟩ : PElem))) ++
            [⟨0, none⟩])).flatten ++
      ((List.range 4).map (fun j =>
          ((List.range 4).map (fun k => (⟨r 1 j k, none⟩ : PElem))) ++
            [⟨0, none⟩])).flatten ++
      ((List.range 1).map (fun j =>
          ((List.range 4).map (fun k => (⟨r 2 j k, none⟩ : PElem))) ++
            [⟨0, none⟩])).flatten :=
  ⟨rfl, rfl⟩

/-- C10: an MLP built with layer widths nouts gives every neuron of layer i
the nonlinearity flag (i != len(nouts) - 1), so every layer applies ReLU
except the last one; and a neuron whose flag is off returns the linear
weighted sum unchanged. -/
theorem C10_last_layer_linear (nin : Nat) (nouts : List Nat)
    (r : Nat → Nat → Nat → ℚ) (i : Nat) (hi : i < nouts.length)
    (w : List ℚ) (b : ℚ) (x : List ℚ) :
    ((MLP.make nin nouts r).layers.getD i ⟨[]⟩).neurons.map Neuron.nonlin =
      List.replicate (nouts.getD i 0) (decide (i ≠ nouts.length - 1)) ∧
    Neuron.call w b false x =
      (List.zip w x).foldl (fun acc wx => acc + wx.1 * wx.2) b := by
  constructor
  · have h1 : (MLP.make nin nouts r).layers.getD i ⟨[]⟩ =
        Layer.make ((nin :: nouts).getD i 0) ((nin :: nouts).getD (i + 1) 0)
          (decide (i ≠ nouts.length - 1)) (r i) := by
      unfold MLP.make
      rw [List.getD_eq_getElem?_getD, List.getElem?_map]
      rw [List.getElem?_range (by simpa using hi)]
      rfl
    have h2 : (nin :: nouts).getD (i + 1) 0 = nouts.getD i 0 := rfl
    rw [h1, h2]
    unfold Layer.make
    rw [List.map_map]
    have hcomp : (Neuron.nonlin ∘ fun j =>
        Neuron.make ((nin :: nouts).getD i 0) (decide (i ≠ nouts.length - 1)) (r i j)) =
        fun _ => decide (i ≠ nouts.length - 1) :=
      funext fun j => rfl
    rw [hcomp, List.map_const', List.length_range]
  · rfl

/-- C10 witness: the theorem applied to an MLP with widths [2, 1] at layer
0 (a non-final layer, so the flag is on there) and a concrete linear
neuron evaluation. -/
theorem C10_witness :
    0 < ([2, 1] : List Nat).length ∧
    (((MLP.make 2 [2, 1] (fun _ _ _ => 0)).layers.getD 0 ⟨[]⟩).neurons.map
        Neuron.nonlin =
      List.replicate (([2, 1] : List Nat).getD 0 0)
        (decide ((0 : Nat) ≠ ([2, 1] : List Nat).length - 1)) ∧
     Neuron.call [1] 0 false [1] =
       (List.zip ([1] : List ℚ) [1]).foldl (fun acc wx => acc + wx.1 * wx.2) 0) :=
  ⟨by norm_num,
   C10_last_layer_linear 2 [2, 1] (fun _ _ _ => 0) 0 (by norm_num) [1] 0 [1]⟩

/-- C3 witness: the theorem applied at a = 2, giving a.grad = 5. -/
theorem C3_witness :
    (backward (c3g 2) gnone 2).map (fun m => m 0) =
      .ok (some (Val.scalar (2 * 2 + 1))) :=
  (C3_shared_leaf_gradient_accumulates 2).2.2

/-- C4 witness: the amended theorem applied at a positive input x = 2 with
upstream gradient 3. -/
theorem C4_witness :
    Element.reluE [leafN 2] 0 = .ok (reluG 2, 1) ∧
    dataAt (reluG 2) 1 = Val.scalar (max 0 2) ∧
    (backward (reluG 2) gnone 1).map (fun m => m 0) =
      .ok (some (Val.scalar (if (0 : ℚ) < 2 then 1 else 0))) ∧
    (propagate (reluG 2) (upd gnone 1 (some (Val.scalar 3))) 1).map (fun m => m 0) =
      .ok (some (Val.scalar (if (0 : ℚ) < 2 then 3 else 0))) :=
  C4_relu_scalar_gradient 2 3

/-- C5 witness: the amended depth-one theorem applied at a = 2, b = 3. -/
theorem C5_witness :
    Element.mulE [leafN 2, leafN 3] 0 1 = .ok (gM 2 3, 2) ∧
    (backward (gM 2 3) gnone 2).map (fun m => (m 0, m 1, m 2)) =
      .ok (some (Val.scalar 3), some (Val.scalar 2), some (Val.scalar 1)) ∧
    (run2 (gM 2 3) gnone 2 (zeroGradIdx [0, 1])).map (fun m => (m 0, m 1, m 2)) =
      .ok (some (Val.scalar 3), some (Val.scalar 2), some (Val.scalar 1)) ∧
    (run2 (gM 2 3) gnone 2 id).map (fun m => (m 0, m 1, m 2)) =
      .ok (some (Val.scalar (2 * 3)), some (Val.scalar (2 * 2)),
        some (Val.scalar 1)) :=
  C5_depth_one_graphs 2 3

/-- C6 witness: the theorem applied to a concrete Neuron, Layer and MLP. -/
theorem C6_witness :
    (Neuron.zeroGrad (Neuron.make 1 true (fun _ => 0))).parameters.map PElem.grad =
      List.replicate
        (Neuron.zeroGrad (Neuron.make 1 true (fun _ => 0))).parameters.length
        (some (0 : ℚ)) ∧
    (Layer.zeroGrad (Layer.make 1 1 true (fun _ _ => 0))).parameters.map PElem.grad =
      List.replicate
        (Layer.zeroGrad (Layer.make 1 1 true (fun _ _ => 0))).parameters.length
        (some (0 : ℚ)) ∧
    (MLP.zeroGrad (MLP.make 1 [1] (fun _ _ _ => 0))).parameters.map PElem.grad =
      List.replicate
        (MLP.zeroGrad (MLP.make 1 [1] (fun _ _ _ => 0))).parameters.length
        (some (0 : ℚ)) :=
  C6_zero_grad_all_variants (Neuron.make 1 true (fun _ => 0))
    (Layer.make 1 1 true (fun _ _ => 0)) (MLP.make 1 [1] (fun _ _ _ => 0))

/-- C8 witness: the theorem applied to the constant-zero random supply. -/
theorem C8_witness :
    (MLP.make 3 [4, 4, 1] (fun _ _ _ => 0)).parameters.length = 41 ∧
    (MLP.make 3 [4, 4, 1] (fun _ _ _ => 0)).parameters =
      ((List.range 4).map (fun j =>
          ((List.range 3).map (fun k => (⟨(fun _ _ _ => (0 : ℚ)) 0 j k, none⟩ : PElem))) ++
            [⟨0, none⟩])).flatten ++
      ((List.range 4).map (fun j =>
          ((List.range 4).map (fun k => (⟨(fun _ _ _ => (0 : ℚ)) 1 j k, none⟩ : PElem))) ++
            [⟨0, none⟩])).flatten ++
      ((List.range 1).map (fun j =>
          ((List.range 4).map (fun k => (⟨(fun _ _ _ => (0 : ℚ)) 2 j k, none⟩ : PElem))) ++
            [⟨0, none⟩])).flatten :=
  C8_mlp_parameters_41 (fun _ _ _ => 0)

end Torchlet
